import Mathlib

/-!
Verification of the parser-combinator library in `src/lib.rs`.

Modelling conventions (shallow embedding):
* A Rust string slice `&str` is modelled as a `List Char`.  All the library's
  slicing operations happen at character boundaries (`len_utf8`, `chars()`,
  byte indices that are provably boundaries), so the character-level model is
  extensionally faithful to the byte-level code.
* `ParseResult<'a, Output> = Result<(&'a str, Output), &'a str>` becomes the
  inductive `ParseResult` below.
* A value of the Rust `Parser` trait (any `Fn(&str) -> ParseResult<Output>`)
  becomes a function `ParserF α := List Char → ParseResult α`.
* The `while let Ok(...)` loops of `one_or_more` / `zero_or_more` are modelled
  with explicit fuel `input.length + 1`.  Every iteration of the Rust loop
  that consumes at least one character decreases the remaining input, so this
  fuel is never exhausted on runs where the Rust loop terminates; fuel
  exhaustion corresponds exactly to the documented divergence hazard (an
  inner parser succeeding without consuming), where the Rust code loops
  forever and returns nothing.
* Rust `char::is_alphabetic` / `is_alphanumeric` / `is_whitespace` are
  modelled by `Char.isAlpha` / `Char.isAlphanum` / `Char.isWhitespace`.
-/

namespace PC

/-- Model of `ParseResult<'a, Output> = Result<(&'a str, Output), &'a str>`:
either success with a remainder and a value, or failure carrying an input. -/
inductive ParseResult (α : Type) : Type where
  | ok : List Char → α → ParseResult α
  | err : List Char → ParseResult α
deriving DecidableEq

/-- Model of the `Parser` trait: anything callable on an input returning a
`ParseResult` (in Rust, any `Fn(&'a str) -> ParseResult<'a, Output>`). -/
def ParserF (α : Type) : Type := List Char → ParseResult α

/-- Model of `input.get(0..n)` on a string slice: the first `n` characters if
the input is long enough, `none` otherwise (the length-bounded, non-panicking
slice used by `match_literal`). -/
def strSlice (s : List Char) (n : Nat) : Option (List Char) :=
  if n ≤ s.length then some (s.take n) else none

/-- Rust `the_letter_a`: consumes a leading 'a' (one byte wide), else fails with
the original input. -/
def the_letter_a : ParserF Unit := fun input =>
  match input with
  | 'a' :: rest => .ok rest ()
  | _ => .err input

/-- Rust `match_literal(expected)`: takes the next `expected.len()` bytes via the
checked slice `input.get(0..expected.len())`; succeeds dropping them when they
equal `expected`, otherwise fails with the original input. -/
def match_literal (expected : List Char) : ParserF Unit := fun input =>
  match strSlice input expected.length with
  | some next => if next = expected then .ok (input.drop expected.length) () else .err input
  | none => .err input

/-- Model of `str::strip_prefix`: `some remainder` when the first argument is
a prefix of the second, `none` otherwise. -/
def stripPfx : List Char → List Char → Option (List Char)
  | [], s => some s
  | _ :: _, [] => none
  | e :: es, c :: cs => if e = c then stripPfx es cs else none

/-- Rust `match_literal_improved(expected)`: `input.strip_prefix(expected)`,
succeeding with the stripped remainder, else failing with the original
input. -/
def match_literal_improved (expected : List Char) : ParserF Unit := fun input =>
  match stripPfx expected input with
  | some next => .ok next ()
  | none => .err input

/-- The `while` loop of `identifier`: greedily take alphanumeric-or-hyphen
characters, stopping at the first character that is neither. -/
def identTail : List Char → List Char
  | [] => []
  | c :: cs => if c.isAlphanum || c = '-' then c :: identTail cs else []

/-- Rust `identifier`: one alphabetic character followed by zero or more
alphanumerics or hyphens; the matched prefix is the value and the rest of the
input (`&input[matched.len()..]`) the remainder; fails with the original
input when the first character is not alphabetic. -/
def identifier : ParserF (List Char) := fun input =>
  match input with
  | [] => .err input
  | c :: cs =>
    if c.isAlpha then
      let matched := c :: identTail cs
      .ok (input.drop matched.length) matched
    else .err input

/-- Rust `pair(parser1, parser2)`: `parser1.parse(input).and_then(|(next, r1)|
parser2.parse(next).map(|(last, r2)| (last, (r1, r2))))` — each `Err` payload
propagates exactly as the failing step returned it. -/
def pair {α β : Type} (parser1 : ParserF α) (parser2 : ParserF β) : ParserF (α × β) :=
  fun input =>
    match parser1 input with
    | .ok next_input result1 =>
      match parser2 next_input with
      | .ok last_input result2 => .ok last_input (result1, result2)
      | .err e => .err e
    | .err e => .err e

/-- Rust `map(parser, map_fn)`: apply `map_fn` to the value on success, propagate
failure unchanged. -/
def map {α β : Type} (parser : ParserF α) (map_fn : α → β) : ParserF β :=
  fun input =>
    match parser input with
    | .ok next_input result => .ok next_input (map_fn result)
    | .err e => .err e

/-- Rust `left(parser1, parser2) = map(pair(parser1, parser2), |(l, _r)| l)`. -/
def left {α β : Type} (parser1 : ParserF α) (parser2 : ParserF β) : ParserF α :=
  map (pair parser1 parser2) (fun p => p.1)

/-- Rust `right(parser1, parser2) = map(pair(parser1, parser2), |(_l, r)| r)`. -/
def right {α β : Type} (parser1 : ParserF α) (parser2 : ParserF β) : ParserF β :=
  map (pair parser1 parser2) (fun p => p.2)

/-- The shared `while let Ok((next_input, next_item)) = parser.parse(input)`
loop of `one_or_more` and `zero_or_more`, with explicit fuel.  Returns the
final input together with the collected items; like the Rust loop it can
never produce a failure.  Fuel exhaustion models the documented divergence
on inner parsers that succeed without consuming. -/
def many_loop {α : Type} (parser : ParserF α) : Nat → List Char → List Char × List α
  | 0, input => (input, [])
  | fuel + 1, input =>
    match parser input with
    | .ok next_input next_item =>
      let rest := many_loop parser fuel next_input
      (rest.1, next_item :: rest.2)
    | .err _ => (input, [])

/-- Rust `one_or_more(parser)`: one mandatory first success (failure there returns
`Err(input)`), then the shared collection loop. -/
def one_or_more {α : Type} (parser : ParserF α) : ParserF (List α) := fun input =>
  match parser input with
  | .ok next_input first_item =>
    let rest := many_loop parser (next_input.length + 1) next_input
    .ok rest.1 (first_item :: rest.2)
  | .err _ => .err input

/-- Rust `zero_or_more(parser)`: just the collection loop; always ends in `Ok`. -/
def zero_or_more {α : Type} (parser : ParserF α) : ParserF (List α) := fun input =>
  let rest := many_loop parser (input.length + 1) input
  .ok rest.1 rest.2

/-- Rust `any_char`: consumes exactly the first character (Rust advances by
`next.len_utf8()` bytes, i.e. exactly that character's encoded width), fails
only on empty input. -/
def any_char : ParserF Char := fun input =>
  match input with
  | next :: rest => .ok rest next
  | [] => .err input

/-- Rust `pred(parser, predicate)`: on inner success with a value accepted by
`predicate`, return that success; in every other case return `Err(input)`
with the original input. -/
def pred {α : Type} (parser : ParserF α) (predicate : α → Bool) : ParserF α :=
  fun input =>
    match parser input with
    | .ok next_input value => if predicate value then .ok next_input value else .err input
    | .err _ => .err input

/-- Rust `whitespace_char() = pred(any_char, |c| c.is_whitespace())`. -/
def whitespace_char : ParserF Char := pred any_char (fun c => c.isWhitespace)

/-- Rust `space1() = one_or_more(whitespace_char())`. -/
def space1 : ParserF (List Char) := one_or_more whitespace_char

/-- Rust `space0() = zero_or_more(whitespace_char())`. -/
def space0 : ParserF (List Char) := zero_or_more whitespace_char

/-- Rust `quoted_string()`: a quote, zero or more non-quote characters, a closing
quote; the quotes are discarded by `right`/`left` and the characters are
collected into a string (under the `List Char` model of `String`, the
collection step is the identity). -/
def quoted_string : ParserF (List Char) :=
  map
    (right (match_literal ['"'])
      (left (zero_or_more (pred any_char (fun c => c != '"')))
        (match_literal ['"'])))
    (fun chars => chars)

/-- Syntax of every parser buildable from the library's exposed surface: the
primitives together with the combinators, the latter closed under arbitrary
mapped functions and predicates.  Derived parsers (`left`, `right`,
`whitespace_char`, `space0`, `space1`, `quoted_string`) are compositions of
these constructors, exactly as in the source. -/
inductive Px : Type → Type 1 where
  | theLetterA : Px Unit
  | matchLit : List Char → Px Unit
  | matchLitImproved : List Char → Px Unit
  | ident : Px (List Char)
  | anyChar : Px Char
  | pairP {α β : Type} : Px α → Px β → Px (α × β)
  | mapP {α β : Type} : Px α → (α → β) → Px β
  | oneOrMoreP {α : Type} : Px α → Px (List α)
  | zeroOrMoreP {α : Type} : Px α → Px (List α)
  | predP {α : Type} : Px α → (α → Bool) → Px α

/-- Semantics of a library parser: each constructor denotes the
corresponding source function. -/
def denote : {α : Type} → Px α → ParserF α
  | _, .theLetterA => the_letter_a
  | _, .matchLit e => match_literal e
  | _, .matchLitImproved e => match_literal_improved e
  | _, .ident => identifier
  | _, .anyChar => any_char
  | _, .pairP p1 p2 => pair (denote p1) (denote p2)
  | _, .mapP p f => map (denote p) f
  | _, .oneOrMoreP p => one_or_more (denote p)
  | _, .zeroOrMoreP p => zero_or_more (denote p)
  | _, .predP p f => pred (denote p) f

/-- Rust `left` at the syntax level, as in the source: `map(pair(p1, p2), fst)`. -/
def leftPx {α β : Type} (p1 : Px α) (p2 : Px β) : Px α :=
  .mapP (.pairP p1 p2) (fun p => p.1)

/-- Rust `right` at the syntax level: `map(pair(p1, p2), snd)`. -/
def rightPx {α β : Type} (p1 : Px α) (p2 : Px β) : Px β :=
  .mapP (.pairP p1 p2) (fun p => p.2)

/-- Rust `quoted_string` at the syntax level, mirroring the source composition. -/
def quotedStringPx : Px (List Char) :=
  .mapP
    (rightPx (.matchLit ['"'])
      (leftPx (.zeroOrMoreP (.predP .anyChar (fun c => c != '"')))
        (.matchLit ['"'])))
    (fun chars => chars)


/-- Characterisation of the `strip_prefix` model: it succeeds with `t`
exactly when the input is the expected literal followed by `t`. -/
theorem stripPfx_eq_some_iff (e : List Char) : ∀ s t, stripPfx e s = some t ↔ s = e ++ t := by
  induction e with
  | nil =>
    intro s t
    simp [stripPfx]
  | cons a as ih =>
    intro s t
    cases s with
    | nil => simp [stripPfx]
    | cons c cs =>
      simp only [stripPfx]
      by_cases hac : a = c
      · subst hac
        simp [ih]
      · simp only [if_neg hac]
        constructor
        · intro h; exact absurd h (by simp)
        · intro h
          injection h with h1 h2
          exact absurd h1.symm hac

/-- The collection loop never moves forward past the input: its final input
is a suffix of the starting input, provided the inner parser's successful
remainders are suffixes of its inputs. -/
theorem many_loop_fst_suffix {α : Type} (parser : ParserF α)
    (hp : ∀ s r v, parser s = ParseResult.ok r v → r <:+ s) :
    ∀ fuel s, (many_loop parser fuel s).1 <:+ s := by
  intro fuel
  induction fuel with
  | zero =>
    intro s
    simp [many_loop]
  | succ n ih =>
    intro s
    cases h : parser s with
    | ok next item =>
      simp only [many_loop, h]
      exact (ih next).trans (hp s next item h)
    | err e =>
      simp [many_loop, h]

/-- On success, every parser built from the library surface leaves a
remainder that is a suffix of its input. -/
theorem denote_ok_suffix {α : Type} (P : Px α) :
    ∀ s r v, denote P s = ParseResult.ok r v → r <:+ s := by
  induction P with
  | theLetterA =>
    intro s r v h
    unfold denote the_letter_a at h
    split at h
    · cases h
      exact List.suffix_cons _ _
    · cases h
  | matchLit e =>
    intro s r v h
    unfold denote match_literal at h
    split at h
    · split at h
      · cases h
        exact List.drop_suffix _ _
      · cases h
    · cases h
  | matchLitImproved e =>
    intro s r v h
    unfold denote match_literal_improved at h
    split at h
    next t heq =>
      cases h
      have hs : s = e ++ r := (stripPfx_eq_some_iff e s r).mp heq
      exact ⟨e, hs.symm⟩
    next => cases h
  | ident =>
    intro s r v h
    unfold denote identifier at h
    split at h
    · cases h
    · split at h
      · cases h
        exact List.drop_suffix _ _
      · cases h
  | anyChar =>
    intro s r v h
    unfold denote any_char at h
    split at h
    · cases h
      exact List.suffix_cons _ _
    · cases h
  | pairP p1 p2 ih1 ih2 =>
    intro s r v h
    simp only [denote, pair] at h
    cases h1 : denote p1 s with
    | ok next r1 =>
      simp only [h1] at h
      cases h2 : denote p2 next with
      | ok last r2 =>
        simp only [h2] at h
        cases h
        exact (ih2 next r r2 h2).trans (ih1 s next r1 h1)
      | err e =>
        simp only [h2] at h
        cases h
    | err e =>
      simp only [h1] at h
      cases h
  | mapP p f ih =>
    intro s r v h
    simp only [denote, map] at h
    cases h1 : denote p s with
    | ok next r1 =>
      simp only [h1] at h
      cases h
      exact ih s r r1 h1
    | err e =>
      simp only [h1] at h
      cases h
  | oneOrMoreP p ih =>
    intro s r v h
    simp only [denote, one_or_more] at h
    cases h1 : denote p s with
    | ok next first =>
      simp only [h1] at h
      cases h
      exact (many_loop_fst_suffix (denote p) ih (next.length + 1) next).trans (ih s next first h1)
    | err e =>
      simp only [h1] at h
      cases h
  | zeroOrMoreP p ih =>
    intro s r v h
    simp only [denote, zero_or_more] at h
    cases h
    exact many_loop_fst_suffix (denote p) ih (s.length + 1) s
  | predP p f ih =>
    intro s r v h
    simp only [denote, pred] at h
    cases h1 : denote p s with
    | ok next val =>
      simp only [h1] at h
      split at h
      · cases h
        exact ih s _ _ h1
      · cases h
    | err e =>
      simp only [h1] at h
      cases h

/-- On failure, every parser built from the library surface returns an input
that is a suffix of the original input (the original input itself for all
constructs except `pair`, which propagates the failing step's input). -/
theorem denote_err_suffix {α : Type} (P : Px α) :
    ∀ s e, denote P s = ParseResult.err e → e <:+ s := by
  induction P with
  | theLetterA =>
    intro s e h
    unfold denote the_letter_a at h
    split at h
    · cases h
    · cases h
      exact List.suffix_refl _
  | matchLit ex =>
    intro s e h
    unfold denote match_literal at h
    split at h
    · split at h
      · cases h
      · cases h
        exact List.suffix_refl _
    · cases h
      exact List.suffix_refl _
  | matchLitImproved ex =>
    intro s e h
    unfold denote match_literal_improved at h
    split at h
    · cases h
    · cases h
      exact List.suffix_refl _
  | ident =>
    intro s e h
    unfold denote identifier at h
    split at h
    · cases h
      exact List.suffix_refl _
    · split at h
      · cases h
      · cases h
        exact List.suffix_refl _
  | anyChar =>
    intro s e h
    unfold denote any_char at h
    split at h
    · cases h
    · cases h
      exact List.suffix_refl _
  | pairP p1 p2 ih1 ih2 =>
    intro s e h
    simp only [denote, pair] at h
    cases h1 : denote p1 s with
    | ok next r1 =>
      simp only [h1] at h
      cases h2 : denote p2 next with
      | ok last r2 =>
        simp only [h2] at h
        cases h
      | err e2 =>
        simp only [h2] at h
        cases h
        exact (ih2 next e h2).trans (denote_ok_suffix p1 s next r1 h1)
    | err e1 =>
      simp only [h1] at h
      cases h
      exact ih1 s e h1
  | mapP p f ih =>
    intro s e h
    simp only [denote, map] at h
    cases h1 : denote p s with
    | ok next r1 =>
      simp only [h1] at h
      cases h
    | err e1 =>
      simp only [h1] at h
      cases h
      exact ih s e h1
  | oneOrMoreP p ih =>
    intro s e h
    simp only [denote, one_or_more] at h
    cases h1 : denote p s with
    | ok next first =>
      simp only [h1] at h
      cases h
    | err e1 =>
      simp only [h1] at h
      cases h
      exact List.suffix_refl _
  | zeroOrMoreP p ih =>
    intro s e h
    simp only [denote, zero_or_more] at h
    cases h
  | predP p f ih =>
    intro s e h
    simp only [denote, pred] at h
    cases h1 : denote p s with
    | ok next val =>
      simp only [h1] at h
      split at h
      · cases h
      · cases h
        exact List.suffix_refl _
    | err e1 =>
      simp only [h1] at h
      cases h
      exact List.suffix_refl _


/-- C1 (counterexample): the claim "for every parser P exposed by the library,
failure returns the original input" is refuted by `pair`: the library parser
`pair(match_literal("a"), match_literal("b"))` on input `"ax"` fails returning
`"x"`, not the original `"ax"`. -/
theorem pair_violates_no_consumption_on_failure :
    denote (Px.pairP (Px.matchLit ['a']) (Px.matchLit ['b'])) ['a', 'x'] =
      ParseResult.err ['x'] ∧
    (['x'] : List Char) ≠ ['a', 'x'] := by
  decide

/-- C1 (amended): on failure a library parser returns a suffix of the original
input (the intermediate remainder in the `pair` case); `pred(parser,
predicate)` in particular always returns exactly the original input `s` on
failure, even when the inner parser succeeded and consumed characters before
the predicate rejected the value. -/
theorem pred_failure_returns_original {α : Type} (P : Px α) (p : ParserF α) (f : α → Bool)
    (s : List Char) :
    (∀ e, denote P s = ParseResult.err e → e <:+ s) ∧
    (∀ e, pred p f s = ParseResult.err e → e = s) ∧
    (∀ r v, p s = ParseResult.ok r v → f v = false → pred p f s = ParseResult.err s) := by
  refine ⟨fun e h => denote_err_suffix P s e h, fun e h => ?_, fun r v hv hf => ?_⟩
  · unfold pred at h
    cases h1 : p s with
    | ok next val =>
      simp only [h1] at h
      split at h
      · cases h
      · cases h
        rfl
    | err e1 =>
      simp only [h1] at h
      cases h
      rfl
  · simp [pred, hv, hf]

/-- C1 witness: `pred(any_char, |c| c == 'o')` on `"baz"`: the inner
`any_char` succeeds consuming 'b', the predicate rejects it, and the failure
carries the original input. -/
theorem pred_failure_returns_original_witness :
    pred any_char (fun c => c == 'o') ['b', 'a', 'z'] = ParseResult.err ['b', 'a', 'z'] :=
  (pred_failure_returns_original Px.anyChar any_char (fun c => c == 'o') ['b', 'a', 'z']).2.2
    ['a', 'z'] 'b' (by decide) (by decide)

/-- C2 (counterexample): the claim says that when `p2.parse(r1)` fails,
`pair(p1, p2).parse(s)` returns `r1`.  With `p1 = match_literal("a")` and
`p2 = pair(match_literal("b"), match_literal("c"))` on `s = "abx"`: `p1`
succeeds with remainder `r1 = "bx"`, `p2` fails on `"bx"`, yet the outer pair
returns `"x"` — `pair` propagates `p2`'s returned error input, not `r1`. -/
theorem pair_failure_not_intermediate_input :
    match_literal ['a'] ['a', 'b', 'x'] = ParseResult.ok ['b', 'x'] () ∧
    pair (match_literal ['b']) (match_literal ['c']) ['b', 'x'] = ParseResult.err ['x'] ∧
    pair (match_literal ['a']) (pair (match_literal ['b']) (match_literal ['c']))
      ['a', 'b', 'x'] = ParseResult.err ['x'] ∧
    (['x'] : List Char) ≠ ['b', 'x'] ∧ (['x'] : List Char) ≠ ['a', 'b', 'x'] := by
  decide

/-- C2 (amended): `pair(p1, p2)` fails with exactly the error input returned
by the failing step: `p2`'s returned error input when `p1` succeeded (this is
`r1` whenever `p2` reports failure with its own input), and `p1`'s returned
error input when `p1` fails (this is `s` whenever `p1` reports
no-consumption failure). -/
theorem pair_propagates_failing_step {α β : Type} (p1 : ParserF α) (p2 : ParserF β)
    (s : List Char) :
    (∀ r1 v1 e, p1 s = ParseResult.ok r1 v1 → p2 r1 = ParseResult.err e →
      pair p1 p2 s = ParseResult.err e) ∧
    (∀ e, p1 s = ParseResult.err e → pair p1 p2 s = ParseResult.err e) := by
  constructor
  · intro r1 v1 e h1 h2
    simp [pair, h1, h2]
  · intro e h1
    simp [pair, h1]

/-- C2 witness: `pair(match_literal("<"), identifier)` on `"<!"`: the literal
succeeds with remainder `"!"`, `identifier` fails there, and the pair fails
with that intermediate input. -/
theorem pair_propagates_failing_step_witness :
    pair (match_literal ['<']) identifier ['<', '!'] = ParseResult.err ['!'] :=
  (pair_propagates_failing_step (match_literal ['<']) identifier ['<', '!']).1
    ['!'] () ['!'] (by decide) (by decide)

/-- C3: `zero_or_more(P)` never fails, and when the first attempt of `P`
fails it succeeds with the empty sequence and the original input as
remainder. -/
theorem zero_or_more_never_fails {α : Type} (p : ParserF α) (s : List Char) :
    (∃ r v, zero_or_more p s = ParseResult.ok r v) ∧
    ((∃ e, p s = ParseResult.err e) → zero_or_more p s = ParseResult.ok s []) := by
  constructor
  · exact ⟨_, _, rfl⟩
  · rintro ⟨e, he⟩
    simp [zero_or_more, many_loop, he]

/-- C3 witness: `zero_or_more(any_char)` on the empty input, where the first
attempt of `any_char` fails. -/
theorem zero_or_more_never_fails_witness :
    zero_or_more any_char [] = ParseResult.ok [] [] :=
  (zero_or_more_never_fails any_char []).2 ⟨[], by decide⟩

/-- C4: `one_or_more(P).parse(s)` fails iff `zero_or_more(P).parse(s)`
succeeds with an empty sequence, and on failure `one_or_more` returns the
original input `s`. -/
theorem one_or_more_fails_iff_zero_or_more_empty {α : Type} (p : ParserF α) (s : List Char) :
    ((∃ e, one_or_more p s = ParseResult.err e) ↔
      (∃ r, zero_or_more p s = ParseResult.ok r [])) ∧
    (∀ e, one_or_more p s = ParseResult.err e → e = s) := by
  cases h : p s with
  | ok next item =>
    refine ⟨⟨?_, ?_⟩, ?_⟩
    · rintro ⟨e, he⟩
      simp [one_or_more, h] at he
    · rintro ⟨r, hr⟩
      simp [zero_or_more, many_loop, h] at hr
    · intro e he
      simp [one_or_more, h] at he
  | err e0 =>
    refine ⟨⟨?_, ?_⟩, ?_⟩
    · intro _
      exact ⟨s, by simp [zero_or_more, many_loop, h]⟩
    · intro _
      exact ⟨s, by simp [one_or_more, h]⟩
    · intro e he
      simp [one_or_more, h] at he
      exact he.symm

/-- C4 witness: `one_or_more(match_literal("le"))` on the empty input fails,
so `zero_or_more(match_literal("le"))` succeeds there with the empty
sequence; and the failure input is the original (empty) input. -/
theorem one_or_more_fails_iff_zero_or_more_empty_witness :
    (∃ r, zero_or_more (match_literal ['l', 'e']) [] = ParseResult.ok r []) ∧
    ([] : List Char) = [] :=
  ⟨(one_or_more_fails_iff_zero_or_more_empty (match_literal ['l', 'e']) []).1.mp
      ⟨[], by decide⟩,
   (one_or_more_fails_iff_zero_or_more_empty (match_literal ['l', 'e']) []).2 [] (by decide)⟩

/-- C5: on success, every parser built from the library surface leaves a
remainder `r` such that `s` is a consumed prefix followed by `r`, and `r` is
never longer than `s`. -/
theorem success_remainder_is_suffix {α : Type} (P : Px α) (s r : List Char) (v : α)
    (h : denote P s = ParseResult.ok r v) :
    (∃ t, t ++ r = s) ∧ r.length ≤ s.length := by
  have hs := denote_ok_suffix P s r v h
  exact ⟨hs, hs.length_le⟩

/-- C5 witness: `identifier` on `"a b"` succeeds with remainder `" b"`, a
suffix no longer than the input. -/
theorem success_remainder_is_suffix_witness :
    (∃ t, t ++ [' ', 'b'] = ['a', ' ', 'b']) ∧
    ([' ', 'b'] : List Char).length ≤ (['a', ' ', 'b'] : List Char).length :=
  success_remainder_is_suffix Px.ident ['a', ' ', 'b'] [' ', 'b'] ['a'] (by decide)

/-- C6: when the input is shorter than the expected literal, the
length-bounded slice step itself returns `none` (no out-of-range access) and
`match_literal` fails with the original input. -/
theorem match_literal_short_input_fails (expected s : List Char)
    (h : s.length < expected.length) :
    strSlice s expected.length = none ∧ match_literal expected s = ParseResult.err s := by
  have hn : ¬ expected.length ≤ s.length := by omega
  constructor
  · simp [strSlice, hn]
  · simp [match_literal, strSlice, hn]

/-- C6 witness: `match_literal("abra")` on the empty input. -/
theorem match_literal_short_input_fails_witness :
    strSlice [] (['a', 'b', 'r', 'a'] : List Char).length = none ∧
    match_literal ['a', 'b', 'r', 'a'] [] = ParseResult.err [] :=
  match_literal_short_input_fails ['a', 'b', 'r', 'a'] [] (by decide)

/-- C7: `any_char` succeeds on every non-empty input, consuming exactly the
first character and returning it as the value, and fails only on the empty
input, returning the empty input. -/
theorem any_char_consumes_first (s : List Char) :
    (∀ c cs, s = c :: cs → any_char s = ParseResult.ok cs c) ∧
    (s = [] → any_char s = ParseResult.err []) := by
  constructor
  · intro c cs h
    subst h
    rfl
  · intro h
    subst h
    rfl

/-- C7 witness: `any_char` on `"ok"` consumes exactly the 'o'. -/
theorem any_char_consumes_first_witness :
    any_char ['o', 'k'] = ParseResult.ok ['k'] 'o' :=
  (any_char_consumes_first ['o', 'k']).1 'o' ['k'] rfl

/-- C8: `map(P, identity) = P` pointwise; `map(P, f)` succeeds with remainder
`r` and value `f v` exactly when `P` succeeds with remainder `r` and value
`v`, and propagates `P`'s failure unchanged. -/
theorem map_identity_and_success_law {α β : Type} (p : ParserF α) (f : α → β) (s : List Char) :
    map p id s = p s ∧
    (∀ r v, p s = ParseResult.ok r v → map p f s = ParseResult.ok r (f v)) ∧
    (∀ r w, map p f s = ParseResult.ok r w → ∃ v, p s = ParseResult.ok r v ∧ w = f v) ∧
    (∀ e, p s = ParseResult.err e → map p f s = ParseResult.err e) := by
  refine ⟨?_, fun r v h => ?_, fun r w h => ?_, fun e h => ?_⟩
  · cases h : p s with
    | ok next val => simp [map, h]
    | err e => simp [map, h]
  · simp [map, h]
  · cases h1 : p s with
    | ok next val =>
      simp only [map, h1] at h
      cases h
      exact ⟨val, rfl, rfl⟩
    | err e =>
      simp only [map, h1] at h
      cases h
  · simp [map, h]

/-- C8 witness: `map(any_char, identity)` agrees with `any_char` on `"a"`,
and `map(any_char, toNat)` maps the parsed value. -/
theorem map_identity_and_success_law_witness :
    map any_char id ['a'] = any_char ['a'] ∧
    map any_char Char.toNat ['a'] = ParseResult.ok [] (Char.toNat 'a') :=
  ⟨(map_identity_and_success_law any_char Char.toNat ['a']).1,
   (map_identity_and_success_law any_char Char.toNat ['a']).2.1 [] 'a' (by decide)⟩

/-- C9: the byte-range-slice implementation `match_literal` and the
strip-prefix implementation `match_literal_improved` are extensionally
equal: same result on every expected literal and every input. -/
theorem match_literal_eq_improved (expected s : List Char) :
    match_literal expected s = match_literal_improved expected s := by
  simp only [match_literal, match_literal_improved]
  cases hsp : stripPfx expected s with
  | some t =>
    have hs : s = expected ++ t := (stripPfx_eq_some_iff expected s t).mp hsp
    subst hs
    have hlen : expected.length ≤ (expected ++ t).length := by
      simp
    simp [strSlice, hlen, List.take_left, List.drop_left]
  | none =>
    have hnotpre : ¬ (expected.length ≤ s.length ∧ s.take expected.length = expected) := by
      rintro ⟨hle, htake⟩
      have hs : s = expected ++ s.drop expected.length := by
        conv_lhs => rw [← List.take_append_drop expected.length s]
        rw [htake]
      have hsome := (stripPfx_eq_some_iff expected s (s.drop expected.length)).mpr hs
      rw [hsome] at hsp
      cases hsp
    simp only [strSlice]
    by_cases hle : expected.length ≤ s.length
    · have hne : ¬ s.take expected.length = expected := fun hx => hnotpre ⟨hle, hx⟩
      simp [hle, hne]
    · simp [hle]

/-- C10: `quoted_string()` on the unterminated input `"abc` (opening quote,
no closing quote) fails returning the empty remainder left after consuming
the quote and all non-quote characters — not the original input. -/
theorem quoted_string_unterminated_failure :
    quoted_string ['"', 'a', 'b', 'c'] = ParseResult.err [] ∧
    denote quotedStringPx ['"', 'a', 'b', 'c'] = ParseResult.err [] ∧
    ([] : List Char) ≠ ['"', 'a', 'b', 'c'] := by
  decide

end PC
